import Mathlib

set_option maxRecDepth 100000
set_option maxHeartbeats 2000000

/-!
A verification development for `create_sample_dataset.py`, the federal-bill
sample dataset creator.  The Python source is embedded shallowly:

* strings are lists of characters, Python's `in` on strings is contiguous
  substring containment, and `str.lower` maps `Char.toLower` over the text;
* the impact classifier, the progression scorer and the stratified sampler
  are translated function by function from the source;
* Python binary64 `float` arithmetic (the literals `0.3`, `0.4`, `0.2`,
  `0.1`, `0.6` and the products `int * float` inside `select_sample_bills`)
  is modelled exactly: a non-negative binary64 value is a dyadic rational
  `num / 2 ^ exp`, each literal is replaced by its exact binary64 value, and
  each multiplication performs one correct rounding to 53 significant bits
  with ties to even, which is precisely IEEE-754 behaviour (all quantities
  involved are far from the subnormal and overflow ranges);
* `random.sample` is an oracle parameter `pick`; the predicate `pickSpec`
  states the guarantees Python documents for it (a sample of the requested
  size, drawn from the population, without replacement).
-/

/-- `str.lower` of the Python source, character by character (all the text
the program inspects is ASCII). -/
def lowerStr (s : List Char) : List Char := s.map Char.toLower

/-- Python's `needle in hay` on strings: contiguous substring containment. -/
def substrIn (needle hay : List Char) : Bool :=
  hay.tails.any (fun t => needle.isPrefixOf t)

/-- "a occurs, and b occurs later": the committee-report pattern wording of
the specification ("committee...report" / "ordered...reported").  This is
what `re.search("committee.*report", text)` would test; the source imports
`re` but never calls it. -/
def followedBy (a b hay : List Char) : Bool :=
  hay.tails.any (fun t => a.isPrefixOf t && substrIn b (t.drop a.length))

/-- The four impact tiers (`impact_categories` keys of the source). -/
inductive Tier where
  | high_impact
  | medium_impact
  | low_impact
  | mixed_impact
deriving DecidableEq, Fintype

/-- `self.high_impact_keywords` of `BillAnalyzer.__init__`. -/
def high_impact_keywords : List (List Char) :=
  ["healthcare", "medicare", "medicaid", "prescription", "drug",
   "health insurance", "tax", "taxes", "wage", "wages", "benefit",
   "benefits", "unemployment", "student loan", "education funding",
   "school", "tuition", "housing", "rent", "mortgage",
   "affordable housing", "consumer protection", "privacy",
   "financial services", "banking", "immigration", "refugee", "asylum",
   "family reunification", "social security", "disability",
   "veterans benefits"].map String.toList

/-- `self.medium_impact_keywords` of `BillAnalyzer.__init__`. -/
def medium_impact_keywords : List (List Char) :=
  ["infrastructure", "road", "bridge", "internet", "broadband", "utility",
   "environment", "air quality", "water quality", "climate", "pollution",
   "technology", "artificial intelligence", "ai", "data privacy",
   "digital rights", "veterans", "military benefits", "small business",
   "entrepreneur", "transportation", "public transit", "safety",
   "traffic"].map String.toList

/-- `self.low_impact_keywords` of `BillAnalyzer.__init__`. -/
def low_impact_keywords : List (List Char) :=
  ["post office", "naming", "commemorative", "resolution", "designation",
   "government operations", "agency reorganization", "administrative",
   "military equipment", "defense contract", "base", "facility", "treaty",
   "sanctions", "foreign policy", "diplomatic"].map String.toList

/-- `self.administrative_keywords` of `BillAnalyzer.__init__`. -/
def administrative_keywords : List (List Char) :=
  ["post office", "naming", "commemorative", "designation", "resolution",
   "administrative", "procedural", "government operations"].map String.toList

/-- The combined lower-cased text blob built at the start of
`analyze_bill_impact`: the title, then each other title preceded by one
space. -/
def textToAnalyze (title : List Char) (otherTitles : List (List Char)) : List Char :=
  otherTitles.foldl (fun acc t => acc ++ (' ' :: lowerStr t)) (lowerStr title)

/-- `sum(1 for keyword in kws if keyword in text)`. -/
def keywordCount (kws : List (List Char)) (text : List Char) : Nat :=
  kws.countP (fun k => substrIn k text)

/-- The tier-decision ladder at the end of `analyze_bill_impact`
(lines 143-170 of the source), applied to the combined text blob.  The
source's `if not bill_data: return "mixed_impact"` guard concerns absent
metadata records, which `analyze_all_bills` already skips before calling
the classifier; this function models the present-record path. -/
def analyze_bill_impact (title : List Char) (otherTitles : List (List Char)) : Tier :=
  let text := textToAnalyze title otherTitles
  if administrative_keywords.any (fun k => substrIn k text) then .low_impact
  else
    let high_count := keywordCount high_impact_keywords text
    let medium_count := keywordCount medium_impact_keywords text
    let low_count := keywordCount low_impact_keywords text
    if 2 ≤ high_count ∨ (1 ≤ high_count ∧ 1 ≤ medium_count) then .high_impact
    else if 2 ≤ medium_count ∨ (1 ≤ medium_count ∧ 1 ≤ high_count) then .medium_impact
    else if 2 ≤ low_count then .low_impact
    else if high_count = 1 then .high_impact
    else if medium_count = 1 then .medium_impact
    else .mixed_impact

/-- One entry of a bill's `actions` list: a free-text description and a list
of tag strings. -/
structure BillAction where
  description : List Char
  classification : List (List Char)
deriving DecidableEq

/-- The per-action score of `get_bill_progression_score`: the
`if`/`elif` ladder of lines 185-205 of the source, translated literally.
Note that lines 196-199 test the literal substrings `"committee.*report"`
and `"ordered.*reported"` with Python's `in`, not a regular-expression
search. -/
def actionScore (a : BillAction) : Nat :=
  let d := lowerStr a.description
  if substrIn ("became law".toList) d ∨ "became-law".toList ∈ a.classification then 100
  else if substrIn ("signed by president".toList) d ∨
      "executive-signature".toList ∈ a.classification then 90
  else if substrIn ("passed".toList) d ∧
      (substrIn ("house".toList) d ∨ substrIn ("senate".toList) d) then 80
  else if substrIn ("committee.*report".toList) d ∨
      substrIn ("ordered.*reported".toList) d then 60
  else if substrIn ("committee consideration".toList) d ∨
      substrIn ("markup".toList) d then 40
  else if substrIn ("referred".toList) d then 10
  else if substrIn ("introduced".toList) d then 5
  else 0

/-- `get_bill_progression_score`: the per-action scores summed over the
action list.  A record without an `actions` field scores 0 in the source,
which coincides with the empty action list here. -/
def get_bill_progression_score (actions : List BillAction) : Nat :=
  (actions.map actionScore).sum

/-- The metadata fields of one bill that the analyzer consumes
(`title`, `other_titles[].title`, `actions`, `sponsorships` — of the latter
only the length is ever read; `path` and the raw metadata are filesystem
plumbing and are not inspected by the core). -/
structure Bill where
  identifier : List Char
  title : List Char
  other_titles : List (List Char)
  actions : List BillAction
  sponsorships : List Unit
deriving DecidableEq

/-- The `bill_info` record built for each bill inside `analyze_all_bills`
(the `path`/`metadata` plumbing fields are omitted). -/
structure AnalyzedBill where
  identifier : List Char
  title : List Char
  impact_level : Tier
  progression_score : Nat
  cosponsor_count : Nat
  actions_count : Nat
deriving DecidableEq

/-- The per-bill body of the `analyze_all_bills` loop. -/
def analyzeBill (b : Bill) : AnalyzedBill :=
  { identifier := b.identifier
    title := b.title
    impact_level := analyze_bill_impact b.title b.other_titles
    progression_score := get_bill_progression_score b.actions
    cosponsor_count := b.sponsorships.length
    actions_count := b.actions.length }

/-- `self.impact_categories` after `analyze_all_bills`: each analyzed bill is
appended to the bucket of its tier, in discovery order — equivalently, each
bucket is the discovery-ordered analyzed list filtered by tier. -/
def buildBuckets (bills : List Bill) : Tier → List AnalyzedBill :=
  fun t => (bills.map analyzeBill).filter (fun ab => decide (ab.impact_level = t))

/-! ## The binary64 model

`select_sample_bills` computes its quotas as `int(target_total * ratio)` and
its top-slice size as `int(target_count * 0.6)`, in binary64 floating-point
arithmetic.  A non-negative binary64 value is the dyadic rational
`num / 2 ^ exp`; multiplying two of them exactly and then rounding the exact
product to 53 significant bits (to nearest, ties to even) is exactly the
IEEE-754 multiplication the interpreter performs, and converting a Python
`int` to a float is the same rounding applied to the integer. -/

/-- A non-negative binary64 value as a (not necessarily canonical) dyadic
rational `num / 2 ^ exp`. -/
structure Dy where
  num : Nat
  exp : Nat
deriving DecidableEq

/-- The rational value of a dyadic. -/
def Dy.toQ (d : Dy) : ℚ := (d.num : ℚ) / 2 ^ d.exp

/-- Exact product of two dyadic values. -/
def Dy.mul (a b : Dy) : Dy := ⟨a.num * b.num, a.exp + b.exp⟩

/-- `int(x)` for a non-negative value: truncation toward zero. -/
def Dy.floor (d : Dy) : Nat := d.num / 2 ^ d.exp

/-- Fuelled bit length: `bitsFuel fuel n` is the bit length of `n` whenever
`n < 2 ^ fuel` (structural recursion on the fuel keeps it kernel-reducible). -/
def bitsFuel : Nat → Nat → Nat
  | 0, _ => 0
  | fuel + 1, n => if n = 0 then 0 else bitsFuel fuel (n / 2) + 1

/-- Bit length of a natural number below `2 ^ 1100` (far beyond any exact
product of binary64 values in the normal range): `0` has no bits, otherwise
`2 ^ (bits n - 1) ≤ n < 2 ^ bits n`. -/
def bits (n : Nat) : Nat := bitsFuel 1100 n

/-- Round `n` to a multiple of `2 ^ s` — to nearest, ties to even — and
return the multiplier. -/
def rneDiv (n s : Nat) : Nat :=
  let q := n / 2 ^ s
  let r := n % 2 ^ s
  if r < 2 ^ (s - 1) then q
  else if 2 ^ (s - 1) < r then q + 1
  else if q % 2 = 0 then q else q + 1

/-- Round a non-negative dyadic value to 53 significant bits, to nearest,
ties to even: the binary64 result of an exact dyadic computation.  (All
values this development feeds to `fl53` lie far inside the normal range of
binary64, where significand rounding is the whole story.) -/
def fl53 (d : Dy) : Dy :=
  if bits d.num ≤ 53 then d
  else ⟨rneDiv d.num (bits d.num - 53) * 2 ^ (bits d.num - 53), d.exp⟩

/-- The binary64 value of the literal `0.3`: `0.3 = 5404319552844595 / 2^54`. -/
def c03 : Dy := ⟨5404319552844595, 54⟩

/-- The binary64 value of the literal `0.4`: `0.4 = 3602879701896397 / 2^53`. -/
def c04 : Dy := ⟨3602879701896397, 53⟩

/-- The binary64 value of the literal `0.2`: `0.2 = 3602879701896397 / 2^54`. -/
def c02 : Dy := ⟨3602879701896397, 54⟩

/-- The binary64 value of the literal `0.1`: `0.1 = 3602879701896397 / 2^55`. -/
def c01 : Dy := ⟨3602879701896397, 55⟩

/-- The binary64 value of the literal `0.6`: `0.6 = 5404319552844595 / 2^53`. -/
def c06 : Dy := ⟨5404319552844595, 53⟩

/-- `int(n * c)` in Python for a non-negative `int` `n` and a float `c`:
convert `n` to binary64, multiply with one correct rounding, truncate. -/
def pyIntMulFloat (n : Nat) (c : Dy) : Nat :=
  (fl53 ((fl53 ⟨n, 0⟩).mul c)).floor

/-- The hard-coded quota ratios of `select_sample_bills` (as binary64). -/
def tierRatioF : Tier → Dy
  | .high_impact => c03
  | .medium_impact => c04
  | .low_impact => c02
  | .mixed_impact => c01

/-- The `targets` dictionary of `select_sample_bills`:
`int(target_total * ratio)` per tier. -/
def targets (target_total : Nat) (t : Tier) : Nat :=
  pyIntMulFloat target_total (tierRatioF t)

/-- `top_count = int(target_count * 0.6)`. -/
def topCountF (target_count : Nat) : Nat := pyIntMulFloat target_count c06

/-- The sort comparator of `select_sample_bills`:
`sorted(..., key=lambda x: (x["progression_score"], x["cosponsor_count"]),
reverse=True)` puts `x` before `y` exactly when `x`'s key pair is
lexicographically at least `y`'s (a stable sort with this comparator is
what `sorted(..., reverse=True)` performs). -/
def sortKeyGE (x y : AnalyzedBill) : Bool :=
  decide (y.progression_score < x.progression_score ∨
    (y.progression_score = x.progression_score ∧
      y.cosponsor_count ≤ x.cosponsor_count))

/-- One step of a stable sort: insert `x` behind every already-placed bill
whose key is at least `x`'s, and in front of the first strictly smaller one.
Equal keys therefore keep their original relative order, exactly as in
Python's stable `sorted`. -/
def insertDesc (x : AnalyzedBill) : List AnalyzedBill → List AnalyzedBill
  | [] => [x]
  | y :: ys => if sortKeyGE y x then y :: insertDesc x ys else x :: y :: ys

/-- `sorted(available_bills, key=lambda x: (progression, cosponsors),
reverse=True)`: the stable descending sort of the bucket, realised as stable
insertion in discovery order. -/
def sortDesc (l : List AnalyzedBill) : List AnalyzedBill :=
  l.foldl (fun acc x => insertDesc x acc) []

/-- The body of the per-category loop of `select_sample_bills`.  `pick`
stands for `random.sample`: `pick l k` is the sample of size `k` drawn from
the population `l`.  In the source's local names:
`sorted_bills = sortDesc available_bills`,
`top_count = topCountF target_count`,
`random_count = target_count - top_count`,
`selected = sorted_bills.take top_count`,
`remaining = sorted_bills.drop top_count`. -/
def tierSelect (pick : List AnalyzedBill → Nat → List AnalyzedBill)
    (available_bills : List AnalyzedBill) (target_count : Nat) :
    List AnalyzedBill :=
  if available_bills.length ≤ target_count then available_bills
  else if 0 < target_count - topCountF target_count ∧
      (sortDesc available_bills).drop (topCountF target_count) ≠ [] then
    (sortDesc available_bills).take (topCountF target_count) ++
      pick ((sortDesc available_bills).drop (topCountF target_count))
        (min (target_count - topCountF target_count)
          (((sortDesc available_bills).drop (topCountF target_count)).length))
  else (sortDesc available_bills).take (topCountF target_count)

/-- The iteration order of the `targets` dictionary (Python dictionaries
iterate in insertion order). -/
def tierOrder : List Tier :=
  [.high_impact, .medium_impact, .low_impact, .mixed_impact]

/-- `select_sample_bills`: per-category selections concatenated in the fixed
tier order. -/
def select_sample_bills (pick : List AnalyzedBill → Nat → List AnalyzedBill)
    (impact_categories : Tier → List AnalyzedBill) (target_total : Nat) :
    List AnalyzedBill :=
  tierOrder.flatMap
    (fun t => tierSelect pick (impact_categories t) (targets target_total t))

/-- What Python guarantees about `random.sample(l, k)` for `k ≤ len(l)`,
whatever the seed: `k` elements, drawn from `l`, without replacement (so no
element position is used twice, and distinct population elements stay
distinct in the sample). -/
def pickSpec (pick : List AnalyzedBill → Nat → List AnalyzedBill) : Prop :=
  ∀ l k, k ≤ l.length →
    (pick l k).length = k ∧ (∀ x ∈ pick l k, x ∈ l) ∧
      (l.Nodup → (pick l k).Nodup)

/-- One concrete admissible `pick`: take the first `k` elements. -/
def takePick (l : List AnalyzedBill) (k : Nat) : List AnalyzedBill := l.take k

/-- The classifier with the medium-tier sub-rule
`(1 ≤ medium_count ∧ 1 ≤ high_count)` deleted — the variant the
specification asserts to be equivalent (the deleted disjunct is unreachable
behind the high-tier rule). -/
def analyze_bill_impact_variant (title : List Char)
    (otherTitles : List (List Char)) : Tier :=
  let text := textToAnalyze title otherTitles
  if administrative_keywords.any (fun k => substrIn k text) then .low_impact
  else
    let high_count := keywordCount high_impact_keywords text
    let medium_count := keywordCount medium_impact_keywords text
    let low_count := keywordCount low_impact_keywords text
    if 2 ≤ high_count ∨ (1 ≤ high_count ∧ 1 ≤ medium_count) then .high_impact
    else if 2 ≤ medium_count then .medium_impact
    else if 2 ≤ low_count then .low_impact
    else if high_count = 1 then .high_impact
    else if medium_count = 1 then .medium_impact
    else .mixed_impact

/-! The four-bill corpus of the specification's end-to-end test. -/

/-- End-to-end test bill 1: `{title: "Post Office Designation Act",
actions: []}`. -/
def bill1 : Bill :=
  ⟨"HR1".toList, "Post Office Designation Act".toList, [], [], []⟩

/-- End-to-end test bill 2: `{title: "Medicare Drug Pricing and Tax Relief
Act", actions: [introduced, passed house]}`. -/
def bill2 : Bill :=
  ⟨"HR2".toList, "Medicare Drug Pricing and Tax Relief Act".toList, [],
   [⟨"introduced".toList, []⟩, ⟨"passed house".toList, []⟩], []⟩

/-- End-to-end test bill 3: `{title: "Small Business Broadband Act",
actions: [referred]}`. -/
def bill3 : Bill :=
  ⟨"HR3".toList, "Small Business Broadband Act".toList, [],
   [⟨"referred".toList, []⟩], []⟩

/-- End-to-end test bill 4: `{title: "Armed Forces Commemorative
Resolution", actions: []}`. -/
def bill4 : Bill :=
  ⟨"HR4".toList, "Armed Forces Commemorative Resolution".toList, [], [], []⟩

/-- The end-to-end corpus, in discovery order. -/
def corpus4 : List Bill := [bill1, bill2, bill3, bill4]

/-! Buckets witnessing that the four float quotas can add up to more than
the target: at `target_total = 36028797018963997` the conversion of the
target to binary64 rounds up to `36028797018964000`, a multiple of ten, and
the four quotas add up to exactly that. -/

/-- The smallest-known target total whose quotas sum above it. -/
def cexN : Nat := 36028797018963997

/-- Pairwise-distinct analyzed bills: the tier tag separates buckets and the
cosponsor count separates bills inside one bucket. -/
def mkCexBill (t : Tier) (i : Nat) : AnalyzedBill := ⟨[], [], t, 0, i, 0⟩

/-- One bucket per tier, holding exactly as many distinct bills as that
tier's quota at `cexN`. -/
def cexBuckets : Tier → List AnalyzedBill :=
  fun t => (List.range (targets cexN t)).map (mkCexBill t)

/-! ## Base lemmas for the binary64 model -/

theorem bitsFuel_zero_eq : ∀ fuel, bitsFuel fuel 0 = 0
  | 0 => rfl
  | _ + 1 => by rw [bitsFuel]; simp

theorem bitsFuel_spec : ∀ fuel n, 0 < n → n < 2 ^ fuel →
    1 ≤ bitsFuel fuel n ∧ 2 ^ (bitsFuel fuel n - 1) ≤ n ∧ n < 2 ^ bitsFuel fuel n := by
  intro fuel
  induction fuel with
  | zero => intro n h0 h1; omega
  | succ fuel ih =>
    intro n h0 h1
    rw [bitsFuel, if_neg (by omega)]
    by_cases hm : n / 2 = 0
    · have hn1 : n = 1 := by omega
      subst hn1
      simp [hm, bitsFuel_zero_eq fuel]
    · have hmlt : n / 2 < 2 ^ fuel := by
        have h2 : (2 : Nat) ^ (fuel + 1) = 2 ^ fuel * 2 := by ring
        omega
      obtain ⟨hB1, hB2, hB3⟩ := ih (n / 2) (by omega) hmlt
      set B := bitsFuel fuel (n / 2) with hB
      refine ⟨by omega, ?_, ?_⟩
      · have : 2 ^ (B + 1 - 1) = 2 * 2 ^ (B - 1) := by
          rw [Nat.add_sub_cancel]
          conv_lhs => rw [show B = (B - 1) + 1 by omega]
          ring
        omega
      · have : 2 ^ (B + 1) = 2 * 2 ^ B := by ring
        omega

theorem bits_spec (n : Nat) (h0 : 0 < n) (h1 : n < 2 ^ 1100) :
    1 ≤ bits n ∧ 2 ^ (bits n - 1) ≤ n ∧ n < 2 ^ bits n :=
  bitsFuel_spec 1100 n h0 h1

theorem bits_le_of_lt (n : Nat) (h : n < 2 ^ 53) : bits n ≤ 53 := by
  rcases Nat.eq_zero_or_pos n with h0 | h0
  · subst h0; rw [bits, bitsFuel_zero_eq]; omega
  · obtain ⟨h1, h2, _⟩ := bits_spec n h0
      (lt_of_lt_of_le h (Nat.pow_le_pow_right (by omega) (by omega)))
    by_contra hgt
    have : 2 ^ 53 ≤ 2 ^ (bits n - 1) := Nat.pow_le_pow_right (by omega) (by omega)
    omega

theorem fl53_small (d : Dy) (h : d.num < 2 ^ 53) : fl53 d = d := by
  rw [fl53, if_pos (bits_le_of_lt d.num h)]

theorem fl53_big (d : Dy) (h : 53 < bits d.num) :
    fl53 d = ⟨rneDiv d.num (bits d.num - 53) * 2 ^ (bits d.num - 53), d.exp⟩ := by
  rw [fl53, if_neg (by omega)]

theorem rneDiv_ge (n s : Nat) : n / 2 ^ s ≤ rneDiv n s := by
  rw [rneDiv]
  split
  · omega
  · split
    · omega
    · split <;> omega

theorem rneDiv_le (n s : Nat) : rneDiv n s ≤ n / 2 ^ s + 1 := by
  rw [rneDiv]
  split
  · omega
  · split
    · omega
    · split <;> omega

theorem rneDiv_up (n s : Nat) (h : 2 ^ (s - 1) < n % 2 ^ s) :
    rneDiv n s = n / 2 ^ s + 1 := by
  rw [rneDiv, if_neg (by omega), if_pos h]

/-- Round-to-nearest is within half a grid step of its input. -/
theorem rneDiv_close (n s : Nat) :
    rneDiv n s * 2 ^ s ≤ n + 2 ^ (s - 1) ∧ n ≤ rneDiv n s * 2 ^ s + 2 ^ (s - 1) := by
  have hdm := Nat.div_add_mod n (2 ^ s)
  have hmlt : n % 2 ^ s < 2 ^ s := Nat.mod_lt _ (Nat.pos_pow_of_pos s (by omega))
  rw [rneDiv]
  by_cases h1 : n % 2 ^ s < 2 ^ (s - 1)
  · rw [if_pos h1]
    constructor <;> nlinarith [Nat.div_mul_le_self n (2 ^ s)]
  · have hs : 1 ≤ s := by
      by_contra hs0
      have : s = 0 := by omega
      subst this
      simp at h1
      omega
    have h2s : (2 : Nat) ^ s = 2 * 2 ^ (s - 1) := by
      conv_lhs => rw [show s = (s - 1) + 1 by omega]
      ring
    rw [if_neg h1]
    have key : (n / 2 ^ s + 1) * 2 ^ s ≤ n + 2 ^ (s - 1) ∧
        n ≤ (n / 2 ^ s + 1) * 2 ^ s + 2 ^ (s - 1) := by
      constructor <;> nlinarith
    split
    · exact key
    · split
      · constructor <;> nlinarith
      · exact key

theorem Dy.floor_spec (d : Dy) (F : Nat) (h1 : F * 2 ^ d.exp ≤ d.num)
    (h2 : d.num < (F + 1) * 2 ^ d.exp) : d.floor = F := by
  rw [Dy.floor]
  exact Nat.div_eq_of_lt_le h1 h2

/-- Central rounding lemma: for a binary64 constant `M / 2 ^ K` that
approximates the fraction `a / b` from below by at most `(a/b)·(3/4)·2⁻⁵⁴`
and from above by at most `(a/b)·2⁻⁵³`, rounding the exact product
`n · M / 2 ^ K` to 53 significant bits and truncating yields exactly
`a * n / b`, for every `1 ≤ n ≤ 2 ^ 49`. -/
theorem fl53_floor_eq (a b M K n : Nat)
    (ha : 1 ≤ a) (ha3 : a ≤ 3) (hb5 : 5 ≤ b) (hb10 : b ≤ 10)
    (hM1 : 2 ^ 51 ≤ M) (hM2 : M < 2 ^ 53) (hK1 : 53 ≤ K)
    (hcop : Nat.Coprime a b)
    (hdefn : a * 2 ^ K * 2 ^ 56 ≤ b * M * 2 ^ 56 + 3 * (a * 2 ^ K))
    (hexcn : b * M * 2 ^ 53 ≤ a * 2 ^ K * 2 ^ 53 + a * 2 ^ K)
    (n1 : 1 ≤ n) (n2 : n ≤ 2 ^ 49) :
    (fl53 ⟨n * M, K⟩).floor = a * n / b := by
  set P := n * M with hP
  have hP1 : 0 < P := Nat.mul_pos (by omega) (by omega)
  have hPlt : P < 2 ^ 102 := by
    have h1 : P ≤ 2 ^ 49 * (2 ^ 53 - 1) := Nat.mul_le_mul n2 (by omega)
    have h2 : (2 : Nat) ^ 49 * (2 ^ 53 - 1) < 2 ^ 102 := by norm_num
    omega
  set AN := a * n with hAN
  have hdm := Nat.div_add_mod AN b
  set F := AN / b with hF
  set ρ := AN % b with hρdef
  have hρlt : ρ < b := Nat.mod_lt _ (by omega)
  have hANle : AN ≤ 3 * 2 ^ 49 := Nat.mul_le_mul ha3 n2
  have key1 : AN * 2 ^ K * 2 ^ 56 ≤ b * P * 2 ^ 56 + 3 * (AN * 2 ^ K) := by
    have h := Nat.mul_le_mul_right n hdefn
    calc AN * 2 ^ K * 2 ^ 56 = a * 2 ^ K * 2 ^ 56 * n := by rw [hAN]; ring
    _ ≤ (b * M * 2 ^ 56 + 3 * (a * 2 ^ K)) * n := h
    _ = b * P * 2 ^ 56 + 3 * (AN * 2 ^ K) := by rw [hP, hAN]; ring
  have key2 : b * P * 2 ^ 53 ≤ AN * 2 ^ K * 2 ^ 53 + AN * 2 ^ K := by
    have h := Nat.mul_le_mul_right n hexcn
    calc b * P * 2 ^ 53 = b * M * 2 ^ 53 * n := by rw [hP]; ring
    _ ≤ (a * 2 ^ K * 2 ^ 53 + a * 2 ^ K) * n := h
    _ = AN * 2 ^ K * 2 ^ 53 + AN * 2 ^ K := by rw [hAN]; ring
  have hG : AN + 1 ≤ b * F + b := by omega
  have hbF : b * F ≤ AN := by omega
  have hANsm : AN < 2 ^ 53 := by
    have : (3 : Nat) * 2 ^ 49 < 2 ^ 53 := by norm_num
    omega
  by_cases hsmall : bits P ≤ 53
  · -- the product fits in 53 bits: fl53 is the identity
    have hPsmall : P < 2 ^ 53 := by
      obtain ⟨hb1, hb2, hb3⟩ := bits_spec P hP1
        (lt_trans hPlt (Nat.pow_lt_pow_right (by omega) (by omega)))
      calc P < 2 ^ bits P := hb3
      _ ≤ 2 ^ 53 := Nat.pow_le_pow_right (by omega) hsmall
    rw [fl53_small _ hPsmall]
    apply Dy.floor_spec
    · show F * 2 ^ K ≤ P
      by_cases hANb : AN < b
      · have hF0 : F = 0 := by rw [hF]; exact Nat.div_eq_of_lt hANb
        simp [hF0]
      · push_neg at hANb
        by_cases hr0 : ρ = 0
        · exfalso
          have hdvd : b ∣ AN := Nat.dvd_of_mod_eq_zero (by omega)
          have hdvd2 : b ∣ n * a := by rw [hAN] at hdvd; rwa [mul_comm] at hdvd
          have hbn : b ∣ n := (Nat.Coprime.symm hcop).dvd_of_dvd_mul_right hdvd2
          have hnb : b ≤ n := Nat.le_of_dvd (by omega) hbn
          have h5P : 5 * 2 ^ 51 ≤ P := by
            calc 5 * 2 ^ 51 ≤ b * M := Nat.mul_le_mul hb5 hM1
            _ ≤ n * M := Nat.mul_le_mul_right _ hnb
          have h5 : (2 : Nat) ^ 53 < 5 * 2 ^ 51 := by norm_num
          omega
        · have hlow : b * F + 1 ≤ AN := by omega
          have h3AN : 3 * (AN * 2 ^ K) ≤ 2 ^ K * 2 ^ 56 := by
            have h9 : 3 * AN ≤ 2 ^ 56 := by
              have : (9 : Nat) * 2 ^ 49 ≤ 2 ^ 56 := by norm_num
              omega
            calc 3 * (AN * 2 ^ K) = 3 * AN * 2 ^ K := by ring
            _ ≤ 2 ^ 56 * 2 ^ K := Nat.mul_le_mul_right _ h9
            _ = 2 ^ K * 2 ^ 56 := by ring
          have hchain : F * 2 ^ K * (b * 2 ^ 56) + 2 ^ K * 2 ^ 56 ≤
              P * (b * 2 ^ 56) + 2 ^ K * 2 ^ 56 := by
            calc F * 2 ^ K * (b * 2 ^ 56) + 2 ^ K * 2 ^ 56
                = (b * F + 1) * 2 ^ K * 2 ^ 56 := by ring
            _ ≤ AN * 2 ^ K * 2 ^ 56 :=
                Nat.mul_le_mul_right _ (Nat.mul_le_mul_right _ hlow)
            _ ≤ b * P * 2 ^ 56 + 3 * (AN * 2 ^ K) := key1
            _ ≤ b * P * 2 ^ 56 + 2 ^ K * 2 ^ 56 := Nat.add_le_add_left h3AN _
            _ = P * (b * 2 ^ 56) + 2 ^ K * 2 ^ 56 := by ring
          have h1 := Nat.le_of_add_le_add_right hchain
          exact Nat.le_of_mul_le_mul_right h1 (Nat.mul_pos (by omega) (by positivity))
    · show P < (F + 1) * 2 ^ K
      have hstep : AN * 2 ^ 53 + AN < (b * F + b) * 2 ^ 53 := by
        have h1 := Nat.mul_le_mul_right (2 ^ 53) hG
        linarith
      have hchain : P * (b * 2 ^ 53) < (F + 1) * 2 ^ K * (b * 2 ^ 53) := by
        calc P * (b * 2 ^ 53) = b * P * 2 ^ 53 := by ring
        _ ≤ AN * 2 ^ K * 2 ^ 53 + AN * 2 ^ K := key2
        _ = (AN * 2 ^ 53 + AN) * 2 ^ K := by ring
        _ < (b * F + b) * 2 ^ 53 * 2 ^ K :=
            (Nat.mul_lt_mul_right (by positivity)).mpr hstep
        _ = (F + 1) * 2 ^ K * (b * 2 ^ 53) := by ring
      exact (Nat.mul_lt_mul_right (Nat.mul_pos (by omega) (by positivity))).mp hchain
  · -- genuine rounding: 54 or more bits
    push_neg at hsmall
    obtain ⟨hb1, hb2, hb3⟩ := bits_spec P hP1
      (lt_trans hPlt (Nat.pow_lt_pow_right (by omega) (by omega)))
    rw [fl53_big _ hsmall]
    obtain ⟨B, hBdef⟩ : ∃ B, bits P = B := ⟨_, rfl⟩
    rw [hBdef] at hsmall hb1 hb2 hb3 ⊢
    obtain ⟨s, hs1, hBs⟩ : ∃ s, 1 ≤ s ∧ B = s + 53 := ⟨B - 53, by omega, by omega⟩
    rw [hBs] at hb2 hb3 ⊢
    have hss : s + 53 - 53 = s := by omega
    rw [hss]
    have hlo : 2 ^ (s + 52) ≤ P :=
      le_trans (Nat.pow_le_pow_right (by omega) (by omega : s + 52 ≤ s + 53 - 1)) hb2
    have hhi : P < 2 ^ (s + 53) := hb3
    have hs49 : s ≤ 49 := by
      by_contra hs50
      have : (2 : Nat) ^ 102 ≤ 2 ^ (s + 52) := Nat.pow_le_pow_right (by omega) (by omega)
      omega
    have hsK : s ≤ K := by omega
    obtain ⟨Rc1, Rc2⟩ := rneDiv_close P s
    set R := rneDiv P s with hRdef
    have h2s : (2 : Nat) ^ s = 2 * 2 ^ (s - 1) := by
      conv_lhs => rw [show s = (s - 1) + 1 by omega]
      ring
    have hgl : 2 ^ (s - 1) * 2 ^ 53 ≤ P := by
      have h : (2 : Nat) ^ (s - 1) * 2 ^ 53 = 2 ^ (s + 52) := by
        rw [← pow_add]
        congr 1
        omega
      omega
    have hgh : P < 2 ^ (s - 1) * 2 ^ 54 := by
      have h : (2 : Nat) ^ (s - 1) * 2 ^ 54 = 2 ^ (s + 53) := by
        rw [← pow_add]
        congr 1
        omega
      omega
    have c1 : R * 2 ^ s * 2 ^ 53 ≤ P * 2 ^ 53 + P := by
      calc R * 2 ^ s * 2 ^ 53 ≤ (P + 2 ^ (s - 1)) * 2 ^ 53 :=
          Nat.mul_le_mul_right _ Rc1
      _ = P * 2 ^ 53 + 2 ^ (s - 1) * 2 ^ 53 := by ring
      _ ≤ P * 2 ^ 53 + P := by linarith
    apply Dy.floor_spec
    · show F * 2 ^ K ≤ R * 2 ^ s
      by_cases hANb : AN < b
      · have hF0 : F = 0 := by rw [hF]; exact Nat.div_eq_of_lt hANb
        simp [hF0]
      · push_neg at hANb
        by_cases hr0 : ρ = 0
        · -- the exact value a*n/b is the integer F; rounding lands on it
          have hANF : AN = b * F := by omega
          have hF1 : 1 ≤ F := by
            rcases Nat.eq_zero_or_pos F with h | h
            · rw [h] at hANF; omega
            · exact h
          have keyF : F * 2 ^ K * 2 ^ 56 ≤ P * 2 ^ 56 + 3 * (F * 2 ^ K) := by
            have h := key1
            rw [hANF] at h
            have h2 : F * 2 ^ K * 2 ^ 56 * b ≤ (P * 2 ^ 56 + 3 * (F * 2 ^ K)) * b := by
              calc F * 2 ^ K * 2 ^ 56 * b = b * F * 2 ^ K * 2 ^ 56 := by ring
              _ ≤ b * P * 2 ^ 56 + 3 * (b * F * 2 ^ K) := h
              _ = (P * 2 ^ 56 + 3 * (F * 2 ^ K)) * b := by ring
            exact Nat.le_of_mul_le_mul_right h2 (by omega)
          by_cases hPF : F * 2 ^ K ≤ P
          · -- value at or above the integer: truncation already reaches it
            have hT : F * 2 ^ (K - s) * 2 ^ s = F * 2 ^ K := by
              rw [mul_assoc, ← pow_add]
              congr 2
              omega
            have hdivge : F * 2 ^ (K - s) ≤ P / 2 ^ s := by
              rw [Nat.le_div_iff_mul_le (by positivity)]
              rw [hT]
              exact hPF
            calc F * 2 ^ K = F * 2 ^ (K - s) * 2 ^ s := hT.symm
            _ ≤ P / 2 ^ s * 2 ^ s := Nat.mul_le_mul_right _ hdivge
            _ ≤ R * 2 ^ s := Nat.mul_le_mul_right _ (rneDiv_ge P s)
          · -- value strictly below the integer: the round-up rule fires
            push_neg at hPF
            set D := F * 2 ^ K - P with hDdef
            have hPD : P + D = F * 2 ^ K := by omega
            have hD1 : 1 ≤ D := by omega
            have hD56 : D * 2 ^ 56 ≤ 3 * P + 3 * D := by linarith [keyF, hPD]
            have hDP : D * 2 ^ 54 ≤ P := by
              have h4 : D * 2 ^ 56 = 4 * (D * 2 ^ 54) := by ring
              have h3 : 3 * D ≤ D * 2 ^ 54 := by linarith
              linarith
            have hDs : D < 2 ^ (s - 1) := by
              have h : D * 2 ^ 54 < 2 ^ (s - 1) * 2 ^ 54 := by omega
              exact (Nat.mul_lt_mul_right (by positivity)).mp h
            obtain ⟨T, hT'⟩ : ∃ T, F * 2 ^ (K - s) = T + 1 := by
              have h1 : 0 < F * 2 ^ (K - s) := Nat.mul_pos hF1 (by positivity)
              exact ⟨F * 2 ^ (K - s) - 1, by omega⟩
            have hT : F * 2 ^ (K - s) * 2 ^ s = F * 2 ^ K := by
              rw [mul_assoc, ← pow_add]
              congr 2
              omega
            have hTS : T * 2 ^ s + 2 ^ s = F * 2 ^ K := by
              rw [← hT, hT']
              ring
            have hdiv : P / 2 ^ s = T := by
              apply Nat.div_eq_of_lt_le
              · linarith
              · have h : (T + 1) * 2 ^ s = F * 2 ^ K := by linarith [hTS]
                linarith
            have hmod : 2 ^ (s - 1) < P % 2 ^ s := by
              have hdam := Nat.div_add_mod P (2 ^ s)
              rw [hdiv] at hdam
              linarith
            have hup : R = T + 1 := by
              rw [hRdef, rneDiv_up P s hmod, hdiv]
            rw [hup]
            linarith
        · -- fractional part at least 1/b: the sandwich is strict enough
          have hlow : b * F + 1 ≤ AN := by omega
          have c3 : P * 2 ^ 53 ≤ R * 2 ^ s * 2 ^ 53 + P := by
            calc P * 2 ^ 53 ≤ (R * 2 ^ s + 2 ^ (s - 1)) * 2 ^ 53 :=
                Nat.mul_le_mul_right _ Rc2
            _ = R * 2 ^ s * 2 ^ 53 + 2 ^ (s - 1) * 2 ^ 53 := by ring
            _ ≤ R * 2 ^ s * 2 ^ 53 + P := by linarith
          have hbP : b * P * 2 ^ 56 ≤ AN * 2 ^ K * (2 ^ 56 + 2 ^ 3) := by
            calc b * P * 2 ^ 56 = b * P * 2 ^ 53 * 2 ^ 3 := by ring
            _ ≤ (AN * 2 ^ K * 2 ^ 53 + AN * 2 ^ K) * 2 ^ 3 :=
                Nat.mul_le_mul_right _ key2
            _ = AN * 2 ^ K * (2 ^ 56 + 2 ^ 3) := by ring
          have hJB : AN * 2 ^ K * (2 ^ 56 + 2 ^ 3 + 3 * 2 ^ 53) ≤ 2 ^ K * 2 ^ 109 := by
            have h1 : AN * (2 ^ 56 + 2 ^ 3 + 3 * 2 ^ 53) ≤
                3 * 2 ^ 49 * (2 ^ 56 + 2 ^ 3 + 3 * 2 ^ 53) :=
              Nat.mul_le_mul_right _ hANle
            have h2 : (3 : Nat) * 2 ^ 49 * (2 ^ 56 + 2 ^ 3 + 3 * 2 ^ 53) ≤ 2 ^ 109 := by
              norm_num
            calc AN * 2 ^ K * (2 ^ 56 + 2 ^ 3 + 3 * 2 ^ 53)
                = AN * (2 ^ 56 + 2 ^ 3 + 3 * 2 ^ 53) * 2 ^ K := by ring
            _ ≤ 2 ^ 109 * 2 ^ K := Nat.mul_le_mul_right _ (le_trans h1 h2)
            _ = 2 ^ K * 2 ^ 109 := by ring
          have hbig : F * 2 ^ K * (b * 2 ^ 109) + 2 ^ K * 2 ^ 109 ≤
              R * 2 ^ s * (b * 2 ^ 109) + 2 ^ K * 2 ^ 109 := by
            calc F * 2 ^ K * (b * 2 ^ 109) + 2 ^ K * 2 ^ 109
                = (b * F + 1) * 2 ^ K * 2 ^ 56 * 2 ^ 53 := by ring
            _ ≤ AN * 2 ^ K * 2 ^ 56 * 2 ^ 53 :=
                Nat.mul_le_mul_right _ (Nat.mul_le_mul_right _
                  (Nat.mul_le_mul_right _ hlow))
            _ ≤ (b * P * 2 ^ 56 + 3 * (AN * 2 ^ K)) * 2 ^ 53 :=
                Nat.mul_le_mul_right _ key1
            _ = b * 2 ^ 56 * (P * 2 ^ 53) + 3 * (AN * 2 ^ K) * 2 ^ 53 := by ring
            _ ≤ b * 2 ^ 56 * (R * 2 ^ s * 2 ^ 53 + P) + 3 * (AN * 2 ^ K) * 2 ^ 53 :=
                Nat.add_le_add_right (Nat.mul_le_mul_left _ c3) _
            _ = R * 2 ^ s * (b * 2 ^ 109) +
                (b * P * 2 ^ 56 + 3 * (AN * 2 ^ K) * 2 ^ 53) := by ring
            _ ≤ R * 2 ^ s * (b * 2 ^ 109) +
                (AN * 2 ^ K * (2 ^ 56 + 2 ^ 3) + 3 * (AN * 2 ^ K) * 2 ^ 53) :=
                Nat.add_le_add_left (Nat.add_le_add_right hbP _) _
            _ = R * 2 ^ s * (b * 2 ^ 109) +
                AN * 2 ^ K * (2 ^ 56 + 2 ^ 3 + 3 * 2 ^ 53) := by ring
            _ ≤ R * 2 ^ s * (b * 2 ^ 109) + 2 ^ K * 2 ^ 109 :=
                Nat.add_le_add_left hJB _
          have h1 := Nat.le_of_add_le_add_right hbig
          exact Nat.le_of_mul_le_mul_right h1 (Nat.mul_pos (by omega) (by positivity))
    · show R * 2 ^ s < (F + 1) * 2 ^ K
      have hANbig : AN * (2 ^ 54 + 1) < 2 ^ 106 := by
        calc AN * (2 ^ 54 + 1) ≤ 3 * 2 ^ 49 * (2 ^ 54 + 1) :=
            Nat.mul_le_mul_right _ hANle
        _ < 2 ^ 106 := by norm_num
      have hstep : AN * (2 ^ 106 + 2 ^ 54 + 1) < (b * F + b) * 2 ^ 106 := by
        have h1 := Nat.mul_le_mul_right (2 ^ 106) hG
        linarith
      have hchain : R * 2 ^ s * (b * 2 ^ 106) < (F + 1) * 2 ^ K * (b * 2 ^ 106) := by
        calc R * 2 ^ s * (b * 2 ^ 106) = R * 2 ^ s * 2 ^ 53 * (b * 2 ^ 53) := by ring
        _ ≤ (P * 2 ^ 53 + P) * (b * 2 ^ 53) := Nat.mul_le_mul_right _ c1
        _ = b * P * 2 ^ 53 * (2 ^ 53 + 1) := by ring
        _ ≤ (AN * 2 ^ K * 2 ^ 53 + AN * 2 ^ K) * (2 ^ 53 + 1) :=
            Nat.mul_le_mul_right _ key2
        _ = AN * (2 ^ 106 + 2 ^ 54 + 1) * 2 ^ K := by ring
        _ < (b * F + b) * 2 ^ 106 * 2 ^ K :=
            (Nat.mul_lt_mul_right (by positivity)).mpr hstep
        _ = (F + 1) * 2 ^ K * (b * 2 ^ 106) := by ring
      exact (Nat.mul_lt_mul_right (Nat.mul_pos (by omega) (by positivity))).mp hchain

/-- `int(n * c)` for a constant `c = M / 2 ^ K` as in `fl53_floor_eq`, now
including the conversion of `n` itself to binary64 (exact for `n ≤ 2 ^ 49`)
and the case `n = 0`. -/
theorem pyIntMulFloat_eq (a b M K : Nat)
    (ha : 1 ≤ a) (ha3 : a ≤ 3) (hb5 : 5 ≤ b) (hb10 : b ≤ 10)
    (hM1 : 2 ^ 51 ≤ M) (hM2 : M < 2 ^ 53) (hK1 : 53 ≤ K)
    (hcop : Nat.Coprime a b)
    (hdefn : a * 2 ^ K * 2 ^ 56 ≤ b * M * 2 ^ 56 + 3 * (a * 2 ^ K))
    (hexcn : b * M * 2 ^ 53 ≤ a * 2 ^ K * 2 ^ 53 + a * 2 ^ K)
    (n : Nat) (hn : n ≤ 2 ^ 49) :
    pyIntMulFloat n ⟨M, K⟩ = a * n / b := by
  rcases Nat.eq_zero_or_pos n with h0 | h0
  · subst h0
    rw [pyIntMulFloat, fl53_small ⟨0, 0⟩ (by norm_num)]
    have hmul : Dy.mul ⟨0, 0⟩ ⟨M, K⟩ = ⟨0, K⟩ := by
      rw [Dy.mul]
      simp
    rw [hmul, fl53_small _ (by norm_num)]
    simp [Dy.floor]
  · have hn53 : n < 2 ^ 53 := by
      have h : (2 : Nat) ^ 49 < 2 ^ 53 := by norm_num
      omega
    rw [pyIntMulFloat, fl53_small ⟨n, 0⟩ hn53]
    have hmul : Dy.mul ⟨n, 0⟩ ⟨M, K⟩ = ⟨n * M, K⟩ := by
      rw [Dy.mul]
      simp
    rw [hmul]
    exact fl53_floor_eq a b M K n ha ha3 hb5 hb10 hM1 hM2 hK1 hcop hdefn hexcn h0 hn

/-- For targets up to `2 ^ 49`, `int(n * 0.3)` is the exact `3n/10`. -/
theorem quota03_eq (n : Nat) (hn : n ≤ 2 ^ 49) : pyIntMulFloat n c03 = 3 * n / 10 :=
  pyIntMulFloat_eq 3 10 5404319552844595 54 (by norm_num) (by norm_num)
    (by norm_num) (by norm_num) (by norm_num) (by norm_num) (by norm_num)
    (by norm_num) (by norm_num) (by norm_num) n hn

/-- For targets up to `2 ^ 49`, `int(n * 0.4)` is the exact `2n/5`. -/
theorem quota04_eq (n : Nat) (hn : n ≤ 2 ^ 49) : pyIntMulFloat n c04 = 2 * n / 5 :=
  pyIntMulFloat_eq 2 5 3602879701896397 53 (by norm_num) (by norm_num)
    (by norm_num) (by norm_num) (by norm_num) (by norm_num) (by norm_num)
    (by norm_num) (by norm_num) (by norm_num) n hn

/-- For targets up to `2 ^ 49`, `int(n * 0.2)` is the exact `n/5`. -/
theorem quota02_eq (n : Nat) (hn : n ≤ 2 ^ 49) : pyIntMulFloat n c02 = 1 * n / 5 :=
  pyIntMulFloat_eq 1 5 3602879701896397 54 (by norm_num) (by norm_num)
    (by norm_num) (by norm_num) (by norm_num) (by norm_num) (by norm_num)
    (by norm_num) (by norm_num) (by norm_num) n hn

/-- For targets up to `2 ^ 49`, `int(n * 0.1)` is the exact `n/10`. -/
theorem quota01_eq (n : Nat) (hn : n ≤ 2 ^ 49) : pyIntMulFloat n c01 = 1 * n / 10 :=
  pyIntMulFloat_eq 1 10 3602879701896397 55 (by norm_num) (by norm_num)
    (by norm_num) (by norm_num) (by norm_num) (by norm_num) (by norm_num)
    (by norm_num) (by norm_num) (by norm_num) n hn

/-- For counts up to `2 ^ 49`, `int(q * 0.6)` is the exact `3q/5`. -/
theorem topCountF_eq (q : Nat) (hq : q ≤ 2 ^ 49) : topCountF q = 3 * q / 5 :=
  pyIntMulFloat_eq 3 5 5404319552844595 53 (by norm_num) (by norm_num)
    (by norm_num) (by norm_num) (by norm_num) (by norm_num) (by norm_num)
    (by norm_num) (by norm_num) (by norm_num) q hq

/-! ## Sampler lemmas -/

/-- Inserting permutes a cons. -/
theorem insertDesc_perm (x : AnalyzedBill) (l : List AnalyzedBill) :
    (insertDesc x l).Perm (x :: l) := by
  induction l with
  | nil => exact List.Perm.refl _
  | cons y ys ih =>
    rw [insertDesc]
    split
    · exact (ih.cons y).trans (List.Perm.swap x y ys)
    · exact List.Perm.refl _

theorem foldl_insertDesc_perm :
    ∀ (l acc : List AnalyzedBill),
      (l.foldl (fun acc x => insertDesc x acc) acc).Perm (acc ++ l) := by
  intro l
  induction l with
  | nil => intro acc; simp
  | cons x xs ih =>
    intro acc
    rw [List.foldl_cons]
    refine (ih (insertDesc x acc)).trans ?_
    refine (List.Perm.append_right xs (insertDesc_perm x acc)).trans ?_
    exact List.perm_middle.symm

/-- The stable sort is a permutation of the bucket. -/
theorem sortDesc_perm (l : List AnalyzedBill) : (sortDesc l).Perm l := by
  simpa [sortDesc] using foldl_insertDesc_perm l []

/-- Everything the per-tier selection returns comes from the tier's bucket. -/
theorem tierSelect_mem (pick : List AnalyzedBill → Nat → List AnalyzedBill)
    (hpick : pickSpec pick) (l : List AnalyzedBill) (q : Nat) :
    ∀ x ∈ tierSelect pick l q, x ∈ l := by
  intro x hx
  have hperm := sortDesc_perm l
  by_cases h1 : l.length ≤ q
  · rw [tierSelect, if_pos h1] at hx
    exact hx
  · rw [tierSelect, if_neg h1] at hx
    by_cases h2 : 0 < q - topCountF q ∧
        (sortDesc l).drop (topCountF q) ≠ []
    · rw [if_pos h2] at hx
      rcases List.mem_append.mp hx with h | h
      · exact hperm.mem_iff.mp (List.take_subset _ _ h)
      · obtain ⟨hlen, hsub, hnd⟩ := hpick ((sortDesc l).drop (topCountF q))
          (min (q - topCountF q) (((sortDesc l).drop (topCountF q)).length))
          (min_le_right _ _)
        exact hperm.mem_iff.mp (List.drop_subset _ _ (hsub x h))
    · rw [if_neg h2] at hx
      exact hperm.mem_iff.mp (List.take_subset _ _ hx)

/-- The per-tier selection never repeats a bill (the bucket being
duplicate-free). -/
theorem tierSelect_nodup (pick : List AnalyzedBill → Nat → List AnalyzedBill)
    (hpick : pickSpec pick) (l : List AnalyzedBill) (q : Nat)
    (hl : l.Nodup) : (tierSelect pick l q).Nodup := by
  by_cases h1 : l.length ≤ q
  · rw [tierSelect, if_pos h1]
    exact hl
  · have hperm := sortDesc_perm l
    have hsn : (sortDesc l).Nodup := hperm.nodup_iff.mpr hl
    have hsplit := hsn
    rw [← List.take_append_drop (topCountF q) (sortDesc l),
      List.nodup_append] at hsplit
    obtain ⟨htake, hdrop, hdisj⟩ := hsplit
    rw [tierSelect, if_neg h1]
    by_cases h2 : 0 < q - topCountF q ∧
        (sortDesc l).drop (topCountF q) ≠ []
    · rw [if_pos h2, List.nodup_append]
      obtain ⟨hlen, hsub, hnd⟩ := hpick ((sortDesc l).drop (topCountF q))
        (min (q - topCountF q) (((sortDesc l).drop (topCountF q)).length))
        (min_le_right _ _)
      refine ⟨htake, hnd hdrop, ?_⟩
      intro x hxt hxp
      exact hdisj hxt (hsub x hxp)
    · rw [if_neg h2]
      exact htake

/-- The per-tier selection respects the quota. -/
theorem tierSelect_length (pick : List AnalyzedBill → Nat → List AnalyzedBill)
    (hpick : pickSpec pick) (l : List AnalyzedBill) (q : Nat)
    (htc : topCountF q ≤ q) : (tierSelect pick l q).length ≤ q := by
  by_cases h1 : l.length ≤ q
  · rw [tierSelect, if_pos h1]
    exact h1
  · rw [tierSelect, if_neg h1]
    by_cases h2 : 0 < q - topCountF q ∧
        (sortDesc l).drop (topCountF q) ≠ []
    · obtain ⟨hlen, hsub, hnd⟩ := hpick ((sortDesc l).drop (topCountF q))
        (min (q - topCountF q) (((sortDesc l).drop (topCountF q)).length))
        (min_le_right _ _)
      rw [if_pos h2, List.length_append, List.length_take, hlen]
      have hmin := min_le_left (q - topCountF q)
        (((sortDesc l).drop (topCountF q)).length)
      omega
    · rw [if_neg h2, List.length_take]
      omega

/-- Duplicate-freedom of a four-way concatenation. -/
theorem nodup_append4 {α : Type} {l1 l2 l3 l4 : List α}
    (h1 : l1.Nodup) (h2 : l2.Nodup) (h3 : l3.Nodup) (h4 : l4.Nodup)
    (d12 : l1.Disjoint l2) (d13 : l1.Disjoint l3) (d14 : l1.Disjoint l4)
    (d23 : l2.Disjoint l3) (d24 : l2.Disjoint l4) (d34 : l3.Disjoint l4) :
    (l1 ++ (l2 ++ (l3 ++ l4))).Nodup := by
  rw [List.nodup_append, List.nodup_append, List.nodup_append]
  refine ⟨h1, ⟨h2, ⟨h3, h4, d34⟩, ?_⟩, ?_⟩
  · intro a ha hb
    rcases List.mem_append.mp hb with h | h
    · exact d23 ha h
    · exact d24 ha h
  · intro a ha hb
    rcases List.mem_append.mp hb with h | h
    · exact d12 ha h
    · rcases List.mem_append.mp h with h' | h'
      · exact d13 ha h'
      · exact d14 ha h'

/-- The sampler is the concatenation of the four per-tier selections, in the
fixed iteration order of the `targets` dictionary. -/
theorem select_sample_bills_expand
    (pick : List AnalyzedBill → Nat → List AnalyzedBill)
    (buckets : Tier → List AnalyzedBill) (n : Nat) :
    select_sample_bills pick buckets n =
      tierSelect pick (buckets .high_impact) (targets n .high_impact) ++
      (tierSelect pick (buckets .medium_impact) (targets n .medium_impact) ++
      (tierSelect pick (buckets .low_impact) (targets n .low_impact) ++
      tierSelect pick (buckets .mixed_impact) (targets n .mixed_impact))) := by
  simp [select_sample_bills, tierOrder]

/-- For targets up to `2 ^ 49` each quota is the exact floored share. -/
theorem targets_eq (n : Nat) (hn : n ≤ 2 ^ 49) :
    targets n .high_impact = 3 * n / 10 ∧ targets n .medium_impact = 2 * n / 5 ∧
    targets n .low_impact = n / 5 ∧ targets n .mixed_impact = n / 10 := by
  refine ⟨?_, ?_, ?_, ?_⟩
  · rw [targets]; rw [show tierRatioF .high_impact = c03 from rfl]; exact quota03_eq n hn
  · rw [targets]; rw [show tierRatioF .medium_impact = c04 from rfl]; exact quota04_eq n hn
  · rw [targets]; rw [show tierRatioF .low_impact = c02 from rfl]
    rw [quota02_eq n hn]; omega
  · rw [targets]; rw [show tierRatioF .mixed_impact = c01 from rfl]
    rw [quota01_eq n hn]; omega

/-- The four quotas never add up to more than the target, for targets up to
`2 ^ 49`. -/
theorem targets_sum_le (n : Nat) (hn : n ≤ 2 ^ 49) :
    targets n .high_impact + targets n .medium_impact + targets n .low_impact +
      targets n .mixed_impact ≤ n := by
  obtain ⟨e1, e2, e3, e4⟩ := targets_eq n hn
  rw [e1, e2, e3, e4]
  omega

/-- The deterministic slice is never longer than the quota (targets up to
`2 ^ 49`). -/
theorem topCountF_le (q : Nat) (hq : q ≤ 2 ^ 49) : topCountF q ≤ q := by
  rw [topCountF_eq q hq]
  omega

/-- Each quota is at most the target itself. -/
theorem targets_le (n : Nat) (hn : n ≤ 2 ^ 49) (t : Tier) : targets n t ≤ n := by
  obtain ⟨e1, e2, e3, e4⟩ := targets_eq n hn
  cases t
  · rw [e1]; omega
  · rw [e2]; omega
  · rw [e3]; omega
  · rw [e4]; omega

/-- `takePick` is an admissible `random.sample` oracle. -/
theorem takePick_spec : pickSpec takePick := by
  intro l k hk
  refine ⟨?_, ?_, ?_⟩
  · rw [takePick, List.length_take]
    omega
  · intro x hx
    exact List.take_subset _ _ hx
  · intro hl
    exact hl.sublist (List.take_sublist _ _)

/-- The sampler on a zero target: every quota and every top slice is zero,
so every tier contributes nothing — no error is raised anywhere. -/
theorem tierSelect_zero (pick : List AnalyzedBill → Nat → List AnalyzedBill)
    (l : List AnalyzedBill) : tierSelect pick l 0 = [] := by
  by_cases h1 : l.length ≤ 0
  · rw [tierSelect, if_pos h1]
    exact List.eq_nil_of_length_eq_zero (by omega)
  · rw [tierSelect, if_neg h1]
    have htc : topCountF 0 = 0 := by decide
    rw [htc]
    rw [if_neg (by simp)]
    exact List.take_zero _

/-- The head of the per-tier selection, up to the top-slice size, is the
top slice of the stable sort — independent of the random oracle. -/
theorem tierSelect_take (pick : List AnalyzedBill → Nat → List AnalyzedBill)
    (l : List AnalyzedBill) (q : Nat) (h : ¬ l.length ≤ q) :
    (tierSelect pick l q).take (topCountF q) = (sortDesc l).take (topCountF q) := by
  rw [tierSelect, if_neg h]
  by_cases h2 : 0 < q - topCountF q ∧ (sortDesc l).drop (topCountF q) ≠ []
  · rw [if_pos h2]
    have hlt : topCountF q < (sortDesc l).length := by
      by_contra hge
      exact h2.2 (List.drop_eq_nil_of_le (by omega))
    rw [List.take_append_of_le_length (by rw [List.length_take]; omega)]
    rw [List.take_take, min_self]
  · rw [if_neg h2, List.take_take, min_self]

/-! ## The claims -/

/-- C1.  The specification's committee-report rule is dead code: the action
description "Ordered to be Reported" matches the pattern ("ordered" followed
later by "reported"), matches no higher-precedence row (no "became law", no
"signed by president", no "passed"), yet the scorer adds 0 rather than 60,
because lines 196-199 of the source compare the literal strings
`"committee.*report"` / `"ordered.*reported"` with `in` instead of running
the regular-expression search the imported-but-unused `re` module would
provide. -/
theorem C1_committee_report_literal_dead :
    followedBy ("ordered".toList) ("reported".toList)
      (lowerStr ("Ordered to be Reported".toList)) = true ∧
    substrIn ("became law".toList) (lowerStr ("Ordered to be Reported".toList)) = false ∧
    substrIn ("signed by president".toList)
      (lowerStr ("Ordered to be Reported".toList)) = false ∧
    substrIn ("passed".toList) (lowerStr ("Ordered to be Reported".toList)) = false ∧
    actionScore ⟨"Ordered to be Reported".toList, []⟩ = 0 ∧
    get_bill_progression_score [⟨"Ordered to be Reported".toList, []⟩] = 0 := by
  decide

/-- C2 (counterexample).  On the specification's four-bill corpus the
sampler at `targetTotal = 4` does not return all 4 bills: the low tier's
quota is `int(4*0.2) = 0`, so its two bills are dropped. -/
theorem C2_end_to_end_counterexample :
    (select_sample_bills takePick (buildBuckets corpus4) 4).length ≠ 4 := by
  decide

/-- C2 (amended).  On the four-bill corpus, classification yields
{low, high, medium, low} and progression scores {0, 85, 10, 0} as the
specification says, but sampling at `targetTotal = 4` under the default
ratios returns only the high-tier and medium-tier bills (quotas 1,1,0,0):
two bills, not four. -/
theorem C2_end_to_end_actual :
    analyze_bill_impact bill1.title bill1.other_titles = Tier.low_impact ∧
    analyze_bill_impact bill2.title bill2.other_titles = Tier.high_impact ∧
    analyze_bill_impact bill3.title bill3.other_titles = Tier.medium_impact ∧
    analyze_bill_impact bill4.title bill4.other_titles = Tier.low_impact ∧
    get_bill_progression_score bill1.actions = 0 ∧
    get_bill_progression_score bill2.actions = 85 ∧
    get_bill_progression_score bill3.actions = 10 ∧
    get_bill_progression_score bill4.actions = 0 ∧
    targets 4 Tier.high_impact = 1 ∧ targets 4 Tier.medium_impact = 1 ∧
    targets 4 Tier.low_impact = 0 ∧ targets 4 Tier.mixed_impact = 0 ∧
    select_sample_bills takePick (buildBuckets corpus4) 4 =
      [analyzeBill bill2, analyzeBill bill3] := by
  decide

/-- C3 (counterexample).  A title with two distinct high-impact keywords
("tax", "wage") but also an administrative keyword ("designation") is
classified `low`, not `high`: the administrative short-circuit wins. -/
theorem C3_high_keywords_counterexample :
    2 ≤ keywordCount high_impact_keywords
      (textToAnalyze ("Tax and Wage Designation Act".toList) []) ∧
    analyze_bill_impact ("Tax and Wage Designation Act".toList) [] =
      Tier.low_impact ∧
    analyze_bill_impact ("Tax and Wage Designation Act".toList) [] ≠
      Tier.high_impact := by
  decide

/-- C3 (amended).  For every bill whose combined lower-cased title text
contains at least 2 distinct high-impact keywords and no administrative
keyword, the classifier returns the high tier. -/
theorem C3_high_keywords_admin_free (title : List Char)
    (otherTitles : List (List Char))
    (hadmin : administrative_keywords.any
      (fun k => substrIn k (textToAnalyze title otherTitles)) = false)
    (hhigh : 2 ≤ keywordCount high_impact_keywords (textToAnalyze title otherTitles)) :
    analyze_bill_impact title otherTitles = Tier.high_impact := by
  simp only [analyze_bill_impact]
  rw [if_neg (by simp [hadmin]), if_pos (Or.inl hhigh)]

/-- C3 (witness): the amended statement at the concrete title
"Medicare Drug Act". -/
theorem C3_high_keywords_admin_free_witness :
    administrative_keywords.any
      (fun k => substrIn k (textToAnalyze ("Medicare Drug Act".toList) [])) = false ∧
    2 ≤ keywordCount high_impact_keywords
      (textToAnalyze ("Medicare Drug Act".toList) []) ∧
    analyze_bill_impact ("Medicare Drug Act".toList) [] = Tier.high_impact :=
  ⟨by decide, by decide,
    C3_high_keywords_admin_free ("Medicare Drug Act".toList) [] (by decide) (by decide)⟩

/-- C4.  Any administrative keyword in the combined lower-cased title text
forces the low tier, whatever other keywords are present: the
administrative check is the first test of `analyze_bill_impact` and returns
immediately. -/
theorem C4_admin_short_circuit (title : List Char)
    (otherTitles : List (List Char))
    (hadmin : administrative_keywords.any
      (fun k => substrIn k (textToAnalyze title otherTitles)) = true) :
    analyze_bill_impact title otherTitles = Tier.low_impact := by
  simp only [analyze_bill_impact]
  rw [if_pos hadmin]

/-- C4 (witness): a title holding two high-impact keywords and the
administrative keyword "resolution" is still classified low. -/
theorem C4_admin_short_circuit_witness :
    administrative_keywords.any
      (fun k => substrIn k (textToAnalyze ("Medicare Tax Resolution".toList) [])) = true ∧
    2 ≤ keywordCount high_impact_keywords
      (textToAnalyze ("Medicare Tax Resolution".toList) []) ∧
    analyze_bill_impact ("Medicare Tax Resolution".toList) [] = Tier.low_impact :=
  ⟨by decide, by decide,
    C4_admin_short_circuit ("Medicare Tax Resolution".toList) [] (by decide)⟩

/-- C5 (amended).  For pairwise-disjoint, duplicate-free tier buckets, any
admissible `random.sample` behaviour, and any target total up to `2 ^ 49`,
the sampler returns no bill twice, only bills from the buckets, and at most
`targetTotal` bills.  (Beyond `2 ^ 53` the binary64 quota arithmetic can
push the quota sum above the target — see the counterexample.) -/
theorem C5_sampler_invariants (pick : List AnalyzedBill → Nat → List AnalyzedBill)
    (hpick : pickSpec pick) (buckets : Tier → List AnalyzedBill)
    (hnd : ∀ t, (buckets t).Nodup)
    (hdisj : ∀ t t', t ≠ t' → ∀ x ∈ buckets t, x ∉ buckets t')
    (n : Nat) (hn : n ≤ 2 ^ 49) :
    (select_sample_bills pick buckets n).Nodup ∧
    (∀ x ∈ select_sample_bills pick buckets n, ∃ t, x ∈ buckets t) ∧
    (select_sample_bills pick buckets n).length ≤ n := by
  have hmem : ∀ t, ∀ x ∈ tierSelect pick (buckets t) (targets n t), x ∈ buckets t :=
    fun t => tierSelect_mem pick hpick (buckets t) (targets n t)
  have hlen : ∀ t, (tierSelect pick (buckets t) (targets n t)).length ≤ targets n t :=
    fun t => tierSelect_length pick hpick (buckets t) (targets n t)
      (topCountF_le (targets n t) (le_trans (targets_le n hn t) hn))
  have hndt : ∀ t, (tierSelect pick (buckets t) (targets n t)).Nodup :=
    fun t => tierSelect_nodup pick hpick (buckets t) (targets n t) (hnd t)
  have hdisjt : ∀ t t', t ≠ t' →
      (tierSelect pick (buckets t) (targets n t)).Disjoint
        (tierSelect pick (buckets t') (targets n t')) := by
    intro t t' hne a ha ha'
    exact hdisj t t' hne a (hmem t a ha) (hmem t' a ha')
  rw [select_sample_bills_expand]
  refine ⟨?_, ?_, ?_⟩
  · exact nodup_append4 (hndt _) (hndt _) (hndt _) (hndt _)
      (hdisjt _ _ (by decide)) (hdisjt _ _ (by decide)) (hdisjt _ _ (by decide))
      (hdisjt _ _ (by decide)) (hdisjt _ _ (by decide)) (hdisjt _ _ (by decide))
  · intro x hx
    rcases List.mem_append.mp hx with h | h
    · exact ⟨_, hmem _ x h⟩
    · rcases List.mem_append.mp h with h | h
      · exact ⟨_, hmem _ x h⟩
      · rcases List.mem_append.mp h with h | h
        · exact ⟨_, hmem _ x h⟩
        · exact ⟨_, hmem _ x h⟩
  · rw [List.length_append, List.length_append, List.length_append]
    have hsum := targets_sum_le n hn
    have h1 := hlen Tier.high_impact
    have h2 := hlen Tier.medium_impact
    have h3 := hlen Tier.low_impact
    have h4 := hlen Tier.mixed_impact
    omega

/-- C5 (witness): the invariants at the concrete four-bill corpus,
`targetTotal = 4`, with the take-a-prefix oracle. -/
theorem C5_sampler_invariants_witness :
    (select_sample_bills takePick (buildBuckets corpus4) 4).Nodup ∧
    (∀ x ∈ select_sample_bills takePick (buildBuckets corpus4) 4,
        ∃ t, x ∈ buildBuckets corpus4 t) ∧
    (select_sample_bills takePick (buildBuckets corpus4) 4).length ≤ 4 :=
  C5_sampler_invariants takePick takePick_spec (buildBuckets corpus4)
    (by decide) (by decide) 4 (by norm_num)

/-- C5 (counterexample).  At `targetTotal = 36028797018963997` the binary64
quotas sum to `36028797018964000`: with pairwise-disjoint duplicate-free
buckets of exactly quota size the sampler returns three bills more than the
target. -/
theorem C5_total_exceeds_target_counterexample :
    (∀ t t', t ≠ t' → (cexBuckets t).Disjoint (cexBuckets t')) ∧
    (∀ t, (cexBuckets t).Nodup) ∧
    cexN < (select_sample_bills takePick cexBuckets cexN).length := by
  have hinj : ∀ t : Tier, Function.Injective (mkCexBill t) := by
    intro t a b h
    simpa [mkCexBill] using congrArg AnalyzedBill.cosponsor_count h
  refine ⟨?_, ?_, ?_⟩
  · intro t t' hne a ha ha'
    rw [cexBuckets] at ha ha'
    obtain ⟨i, _, hi⟩ := List.mem_map.mp ha
    obtain ⟨j, _, hj⟩ := List.mem_map.mp ha'
    apply hne
    have := congrArg AnalyzedBill.impact_level (hi.trans hj.symm)
    simpa [mkCexBill] using this
  · intro t
    rw [cexBuckets]
    exact List.Nodup.map (hinj t) (List.nodup_range _)
  · rw [select_sample_bills_expand]
    have e : ∀ t, tierSelect takePick (cexBuckets t) (targets cexN t) = cexBuckets t := by
      intro t
      rw [tierSelect, if_pos (by simp [cexBuckets])]
    have hb : ∀ t, (cexBuckets t).length = targets cexN t := by
      intro t
      rw [cexBuckets, List.length_map, List.length_range]
    rw [e, e, e, e, List.length_append, List.length_append, List.length_append,
      hb, hb, hb, hb]
    decide

/-- C6 (amended).  No configuration validation exists: the ratios are
hard-wired constants and the target size is an ordinary parameter.  With a
zero target the sampler silently runs to completion over the (non-empty)
corpus and returns the empty selection, whatever the random oracle — no
error is surfaced before or during the run. -/
theorem C6_no_fail_fast (pick : List AnalyzedBill → Nat → List AnalyzedBill) :
    select_sample_bills pick (buildBuckets corpus4) 0 = [] := by
  rw [select_sample_bills_expand]
  have e : ∀ t : Tier, targets 0 t = 0 := by decide
  simp only [e, tierSelect_zero, List.append_nil]

/-- C6 (counterexample).  The corpus is non-empty (the low bucket holds two
bills), the target 0 is invalid per the specification, and yet the run
finishes normally with an empty selection instead of signalling a
configuration error. -/
theorem C6_no_fail_fast_counterexample :
    (buildBuckets corpus4 Tier.low_impact).length = 2 ∧
    select_sample_bills takePick (buildBuckets corpus4) 0 = [] := by
  decide

/-- C7 (amended).  For every target total up to `2 ^ 49`, each tier's quota
equals the mathematical floor of `targetTotal × ratio` for the default
ratios 0.30, 0.40, 0.20, 0.10.  (Beyond `2 ^ 53` the int-to-float
conversion breaks this — see the counterexample.) -/
theorem C7_quota_floor (n : Nat) (hn : n ≤ 2 ^ 49) :
    targets n Tier.high_impact = 3 * n / 10 ∧
    targets n Tier.medium_impact = 2 * n / 5 ∧
    targets n Tier.low_impact = n / 5 ∧
    targets n Tier.mixed_impact = n / 10 :=
  targets_eq n hn

/-- C7 (witness): the default target 250 gives quotas 75, 100, 50, 25. -/
theorem C7_quota_floor_witness :
    250 ≤ 2 ^ 49 ∧
    (targets 250 Tier.high_impact = 3 * 250 / 10 ∧
     targets 250 Tier.medium_impact = 2 * 250 / 5 ∧
     targets 250 Tier.low_impact = 250 / 5 ∧
     targets 250 Tier.mixed_impact = 250 / 10) :=
  ⟨by norm_num, C7_quota_floor 250 (by norm_num)⟩

/-- C7 (counterexample).  At `targetTotal = 2 ^ 55 + 2` the high quota is
`int(float(targetTotal) * 0.3) = 10808639105689190`, one less than the
mathematical `floor(0.3 × targetTotal) = 10808639105689191`: converting the
target to binary64 rounds it down to `2 ^ 55`. -/
theorem C7_quota_floor_counterexample :
    targets 36028797018963970 Tier.high_impact ≠
      3 * 36028797018963970 / 10 := by
  decide

/-- C8.  For a bucket larger than its quota, the first `top_count` selected
bills are exactly the top slice of the stable descending sort, for any two
random oracles — the top slice does not depend on the seed — and for quotas
up to `2 ^ 49` that deterministic length `int(quota * 0.6)` is the exact
`floor(quota × 0.6) = 3q/5`. -/
theorem C8_top_slice_deterministic (l : List AnalyzedBill) (q : Nat)
    (pick1 pick2 : List AnalyzedBill → Nat → List AnalyzedBill)
    (h : ¬ l.length ≤ q) :
    (tierSelect pick1 l q).take (topCountF q) =
        (tierSelect pick2 l q).take (topCountF q) ∧
    (tierSelect pick1 l q).take (topCountF q) =
        (sortDesc l).take (topCountF q) ∧
    (q ≤ 2 ^ 49 → topCountF q = 3 * q / 5) := by
  refine ⟨?_, tierSelect_take pick1 l q h, fun hq => topCountF_eq q hq⟩
  rw [tierSelect_take pick1 l q h, tierSelect_take pick2 l q h]

/-- C8 (witness): the low bucket of the four-bill corpus (2 bills) with
quota 1, compared under the take-a-prefix oracle and the empty oracle. -/
theorem C8_top_slice_deterministic_witness :
    ¬ ((buildBuckets corpus4 Tier.low_impact).length ≤ 1) ∧
    ((tierSelect takePick (buildBuckets corpus4 Tier.low_impact) 1).take (topCountF 1) =
        (tierSelect (fun _ _ => []) (buildBuckets corpus4 Tier.low_impact) 1).take
          (topCountF 1) ∧
     (tierSelect takePick (buildBuckets corpus4 Tier.low_impact) 1).take (topCountF 1) =
        (sortDesc (buildBuckets corpus4 Tier.low_impact)).take (topCountF 1) ∧
     (1 ≤ 2 ^ 49 → topCountF 1 = 3 * 1 / 5)) :=
  ⟨by decide, C8_top_slice_deterministic (buildBuckets corpus4 Tier.low_impact) 1
    takePick (fun _ _ => []) (by decide)⟩

/-- C9.  Deleting the medium-tier sub-rule
`(1 ≤ medium_count ∧ 1 ≤ high_count)` does not change the classifier on any
input: whenever that disjunct would fire, the high-tier rule above it has
already fired. -/
theorem C9_medium_disjunct_redundant (title : List Char)
    (otherTitles : List (List Char)) :
    analyze_bill_impact title otherTitles =
      analyze_bill_impact_variant title otherTitles := by
  simp only [analyze_bill_impact, analyze_bill_impact_variant]
  by_cases h1 : administrative_keywords.any
      (fun k => substrIn k (textToAnalyze title otherTitles)) = true
  · rw [if_pos h1, if_pos h1]
  · rw [if_neg h1, if_neg h1]
    by_cases h2 : 2 ≤ keywordCount high_impact_keywords (textToAnalyze title otherTitles) ∨
        (1 ≤ keywordCount high_impact_keywords (textToAnalyze title otherTitles) ∧
         1 ≤ keywordCount medium_impact_keywords (textToAnalyze title otherTitles))
    · rw [if_pos h2, if_pos h2]
    · rw [if_neg h2, if_neg h2]
      by_cases h3 : 2 ≤ keywordCount medium_impact_keywords (textToAnalyze title otherTitles)
      · rw [if_pos (Or.inl h3), if_pos h3]
      · have h4 : ¬ (2 ≤ keywordCount medium_impact_keywords (textToAnalyze title otherTitles) ∨
            (1 ≤ keywordCount medium_impact_keywords (textToAnalyze title otherTitles) ∧
             1 ≤ keywordCount high_impact_keywords (textToAnalyze title otherTitles))) := by
          rintro (h | ⟨hm, hh⟩)
          · exact h3 h
          · exact h2 (Or.inr ⟨hh, hm⟩)
        rw [if_neg h4, if_neg h3]

/-- C10.  Keyword counting is substring-based, so one word can satisfy
several keywords: the title "taxes" contains no administrative keyword, yet
both "tax" and "taxes" match as substrings; the high-impact count reaches 2
and the classifier returns the high tier. -/
theorem C10_overlapping_taxes :
    administrative_keywords.any
      (fun k => substrIn k (textToAnalyze ("taxes".toList) [])) = false ∧
    substrIn ("tax".toList) (textToAnalyze ("taxes".toList) []) = true ∧
    substrIn ("taxes".toList) (textToAnalyze ("taxes".toList) []) = true ∧
    2 ≤ keywordCount high_impact_keywords (textToAnalyze ("taxes".toList) []) ∧
    analyze_bill_impact ("taxes".toList) [] = Tier.high_impact := by
  decide
